import Mathlib

/-!
Verification of the Black-Scholes implementation: the pricing model
(`model.py`) and the data-calibration helpers (`data.py`).

Machine floats are modelled by real numbers; Python `None`/raised errors
become `Option`/`Except` values.
-/

open Real MeasureTheory ProbabilityTheory

/-- Standard normal cumulative distribution function, the meaning of
`scipy.stats.norm.cdf`: the integral of the standard Gaussian density
over `(-∞, x]`. -/
noncomputable def normCdf (x : ℝ) : ℝ :=
  ∫ t in Set.Iic x, gaussianPDFReal 0 1 t

/-- `BlackScholesModel.d1` from `model.py`: the formula is split into
`first_term`, `second_term`, `numerator`, `denominator` exactly as the
source does. -/
noncomputable def d1 (S K T r sigma : ℝ) : ℝ :=
  let first_term := Real.log (S / K)
  let second_term := (r + 0.5 * sigma ^ 2) * T
  let numerator := first_term + second_term
  let denominator := sigma * Real.sqrt T
  numerator / denominator

/-- `BlackScholesModel.d2` from `model.py`. -/
noncomputable def d2 (S K T r sigma : ℝ) : ℝ :=
  d1 S K T r sigma - sigma * Real.sqrt T

/-- `BlackScholesModel.call_price` from `model.py`. -/
noncomputable def call_price (S K T r sigma : ℝ) : ℝ :=
  S * normCdf (d1 S K T r sigma)
    - K * Real.exp (-r * T) * normCdf (d2 S K T r sigma)

/-- `BlackScholesModel.put_price` from `model.py` (the source writes the
factors in the order `N(-d2)*K*e^(-rT) - N(-d1)*S`). -/
noncomputable def put_price (S K T r sigma : ℝ) : ℝ :=
  normCdf (-(d2 S K T r sigma)) * K * Real.exp (-r * T)
    - normCdf (-(d1 S K T r sigma)) * S

/-- `d1` as the specification writes it: `(ln(S/K) + (r + σ²/2)·T) / (σ·√T)`. -/
noncomputable def d1_spec (S K T r sigma : ℝ) : ℝ :=
  (Real.log (S / K) + (r + sigma ^ 2 / 2) * T) / (sigma * Real.sqrt T)

/-- `d2` as the specification writes it: `d1 − σ·√T`. -/
noncomputable def d2_spec (S K T r sigma : ℝ) : ℝ :=
  d1_spec S K T r sigma - sigma * Real.sqrt T

/-- Call price as the specification writes it: `S·Φ(d1) − K·e^(−r·T)·Φ(d2)`. -/
noncomputable def call_spec (S K T r sigma : ℝ) : ℝ :=
  S * normCdf (d1_spec S K T r sigma)
    - K * Real.exp (-r * T) * normCdf (d2_spec S K T r sigma)

/-- Put price as the specification writes it: `K·e^(−r·T)·Φ(−d2) − S·Φ(−d1)`. -/
noncomputable def put_spec (S K T r sigma : ℝ) : ℝ :=
  K * Real.exp (-r * T) * normCdf (-(d2_spec S K T r sigma))
    - S * normCdf (-(d1_spec S K T r sigma))

/- Symmetry of the standard normal CDF: `Φ(x) + Φ(-x) = 1`. -/

lemma gaussianPDFReal_neg (t : ℝ) :
    gaussianPDFReal 0 1 (-t) = gaussianPDFReal 0 1 t := by
  simp only [gaussianPDFReal]
  ring_nf

lemma normCdf_neg (x : ℝ) :
    normCdf (-x) = ∫ t in Set.Ioi x, gaussianPDFReal 0 1 t := by
  unfold normCdf
  have h : (∫ t in Set.Iic (-x), gaussianPDFReal 0 1 t)
      = ∫ t in Set.Iic (-x), gaussianPDFReal 0 1 (-t) := by
    refine setIntegral_congr_fun measurableSet_Iic ?_
    intro t _
    exact (gaussianPDFReal_neg t).symm
  rw [h, integral_comp_neg_Iic, neg_neg]

lemma normCdf_add_normCdf_neg (x : ℝ) : normCdf x + normCdf (-x) = 1 := by
  rw [normCdf_neg]
  unfold normCdf
  have hint := integrable_gaussianPDFReal 0 1
  rw [intervalIntegral.integral_Iic_add_Ioi hint.integrableOn hint.integrableOn]
  exact integral_gaussianPDFReal_eq_one 0 one_ne_zero

/-- C1: for every input with `S, K, T > 0` and `sigma > 0`, the model's
`d1`, `d2`, call price and put price equal the closed-form Black-Scholes
expressions of the specification. -/
theorem blackScholes_matches_closed_form (S K T r sigma : ℝ)
    (hS : 0 < S) (hK : 0 < K) (hT : 0 < T) (hsigma : 0 < sigma) :
    d1 S K T r sigma = d1_spec S K T r sigma ∧
    d2 S K T r sigma = d2_spec S K T r sigma ∧
    call_price S K T r sigma = call_spec S K T r sigma ∧
    put_price S K T r sigma = put_spec S K T r sigma := by
  have hd1 : d1 S K T r sigma = d1_spec S K T r sigma := by
    unfold d1 d1_spec
    ring_nf
  have hd2 : d2 S K T r sigma = d2_spec S K T r sigma := by
    unfold d2 d2_spec
    rw [hd1]
  refine ⟨hd1, hd2, ?_, ?_⟩
  · unfold call_price call_spec
    rw [hd1, hd2]
  · unfold put_price put_spec
    rw [hd1, hd2]
    ring

/-- Witness for C1 at `S = K = 1`, `T = 1`, `r = 0`, `sigma = 1`. -/
theorem blackScholes_matches_closed_form_witness :
    d1 1 1 1 0 1 = d1_spec 1 1 1 0 1 ∧
    d2 1 1 1 0 1 = d2_spec 1 1 1 0 1 ∧
    call_price 1 1 1 0 1 = call_spec 1 1 1 0 1 ∧
    put_price 1 1 1 0 1 = put_spec 1 1 1 0 1 :=
  blackScholes_matches_closed_form 1 1 1 0 1 one_pos one_pos one_pos one_pos

/-- C2: put-call parity. For every `S, K, T > 0`, `sigma > 0` and any
real `r`, `call_price - put_price = S - K·e^(-r·T)`. -/
theorem put_call_parity (S K T r sigma : ℝ)
    (hS : 0 < S) (hK : 0 < K) (hT : 0 < T) (hsigma : 0 < sigma) :
    call_price S K T r sigma - put_price S K T r sigma
      = S - K * Real.exp (-r * T) := by
  unfold call_price put_price
  have h1 := normCdf_add_normCdf_neg (d1 S K T r sigma)
  have h2 := normCdf_add_normCdf_neg (d2 S K T r sigma)
  linear_combination S * h1 - K * Real.exp (-r * T) * h2

/-- Witness for C2 at `S = K = 1`, `T = 1`, `r = 0`, `sigma = 1`. -/
theorem put_call_parity_witness :
    call_price 1 1 1 0 1 - put_price 1 1 1 0 1
      = 1 - 1 * Real.exp (-0 * 1) :=
  put_call_parity 1 1 1 0 1 one_pos one_pos one_pos one_pos

/-! `data.py`: volatility estimation. -/

/-- The daily logarithmic returns of a close-price series, as computed by
`np.log(close / close.shift(1)).dropna()` in
`calculate_annualized_volatility`: `ln(P[i] / P[i-1])` for each
consecutive pair, the undefined first value dropped. -/
noncomputable def logReturns : List ℝ → List ℝ
  | p0 :: p1 :: rest => Real.log (p1 / p0) :: logReturns (p1 :: rest)
  | _ => []

/-- Sample standard deviation with the `ddof = 1` convention of
`pandas.Series.std`: `sqrt(Σ(x - mean)² / (n - 1))`. -/
noncomputable def sampleStd (xs : List ℝ) : ℝ :=
  let n : ℝ := xs.length
  let mean := xs.sum / n
  Real.sqrt (((xs.map fun x => (x - mean) ^ 2).sum) / (n - 1))

/-- `calculate_annualized_volatility` from `data.py`, as a function of the
retrieved close prices: with fewer than 2 data points it prints an
insufficient-data error and returns `None` (modelled `none`); otherwise it
returns the sample standard deviation of the log returns times
`sqrt(trading_days)`. -/
noncomputable def calculate_annualized_volatility
    (close : List ℝ) (trading_days : ℕ) : Option ℝ :=
  if close.length < 2 then none
  else some (sampleStd (logReturns close) * Real.sqrt trading_days)

/-- C3: for every price series with fewer than 2 data points, annualized
volatility estimation returns the failure signal `none` — the
insufficient-data error of the spec — and never a numeric default. -/
theorem volatility_insufficient_data (close : List ℝ) (trading_days : ℕ)
    (h : close.length < 2) :
    calculate_annualized_volatility close trading_days = none := by
  unfold calculate_annualized_volatility
  simp [h]

/-- Witness for C3 on the one-point series `[100]`. -/
theorem volatility_insufficient_data_witness :
    calculate_annualized_volatility [100] 252 = none :=
  volatility_insufficient_data [100] 252 (by decide)

/-! `data.py`: nominal-to-continuous rate conversion. -/

/-- `_to_continuous_rate` from `data.py`. The compounding assumption is
the string the Python caller passes; failures are the `ValueError`
messages the source raises. -/
noncomputable def toContinuousRate (y : ℝ) (comp : String) : Except String ℝ :=
  if y < -0.999999 then .error "Yield too low to convert safely."
  else if comp = "annual" then .ok (Real.log (1.0 + y))
  else if comp = "semiannual" then .ok (2.0 * Real.log (1.0 + y / 2.0))
  else .error "comp must be annual or semiannual."

/-- C7: for `y ≥ -0.999999` the conversion returns `ln(1 + y)` under
annual compounding and `2·ln(1 + y/2)` under semiannual compounding, and
it fails when `y < -0.999999` or the compounding assumption is not one of
the two recognized values. -/
theorem toContinuousRate_correct (y : ℝ) (comp : String) :
    (-0.999999 ≤ y →
      toContinuousRate y "annual" = .ok (Real.log (1 + y)) ∧
      toContinuousRate y "semiannual" = .ok (2 * Real.log (1 + y / 2))) ∧
    (y < -0.999999 ∨ (comp ≠ "annual" ∧ comp ≠ "semiannual") →
      ∃ msg, toContinuousRate y comp = .error msg) := by
  constructor
  · intro hy
    have hy' : ¬ y < -0.999999 := not_lt.mpr hy
    constructor
    · unfold toContinuousRate
      simp [hy']
      norm_num
    · unfold toContinuousRate
      simp [hy']
      norm_num
  · rintro (hy | ⟨h1, h2⟩)
    · exact ⟨"Yield too low to convert safely.", by unfold toContinuousRate; simp [hy]⟩
    · unfold toContinuousRate
      by_cases hy : y < -0.999999
      · exact ⟨"Yield too low to convert safely.", by simp [hy]⟩
      · exact ⟨"comp must be annual or semiannual.", by simp [hy, h1, h2]⟩

/-- Witness for C7 at `y = 0.05` with the unrecognized assumption
`"quarterly"`. -/
theorem toContinuousRate_correct_witness :
    (toContinuousRate 0.05 "annual" = .ok (Real.log (1 + 0.05)) ∧
      toContinuousRate 0.05 "semiannual" = .ok (2 * Real.log (1 + 0.05 / 2))) ∧
    ∃ msg, toContinuousRate 0.05 "quarterly" = .error msg := by
  have h := toContinuousRate_correct 0.05 "quarterly"
  exact ⟨h.1 (by norm_num), h.2 (Or.inr ⟨by decide, by decide⟩)⟩

/-! `data.py`: yield-curve interpolation (`risk_free_rate`, lines 153-170).
A yield curve is a list of `(tenor_in_years, yield)` pairs. -/

/-- The bracket scan of `risk_free_rate`: `for i in range(len(ts) - 1)`,
on the first `i` with `ts[i] <= T_years <= ts[i+1]` compute
`w = (T - t0)/(t1 - t0); yT = y0 + w*(y1 - y0)` and `break`. Returns
`none` when the loop finds no bracket (in Python `yT` would then be
unbound). -/
noncomputable def findBracket : List (ℝ × ℝ) → ℝ → Option ℝ
  | (t0, y0) :: (t1, y1) :: rest, T =>
      if t0 ≤ T ∧ T ≤ t1 then some (y0 + (T - t0) / (t1 - t0) * (y1 - y0))
      else findBracket ((t1, y1) :: rest) T
  | _, _ => none

/-- The clamp-or-interpolate step of `risk_free_rate` on the sorted pair
list: `if T_years <= ts[0]: yT = ys[0] elif T_years >= ts[-1]:
yT = ys[-1] else: <bracket scan>`. -/
noncomputable def interpolate (pairs : List (ℝ × ℝ)) (T : ℝ) : Option ℝ :=
  match pairs.head?, pairs.getLast? with
  | some (t0, y0), some (tn, yn) =>
      if T ≤ t0 then some y0
      else if tn ≤ T then some yn
      else findBracket pairs T
  | _, _ => none

/-- Strict ascending order on the tenor components of a pair list; the
curve extracted in `risk_free_rate` has this shape, since `_DEFAULT_TENORS`
maps distinct labels to distinct year values and the code sorts by tenor. -/
def TenorSorted (pairs : List (ℝ × ℝ)) : Prop :=
  pairs.Pairwise fun p q => p.1 < q.1

lemma tenorSorted_head_lt_getLast {pairs : List (ℝ × ℝ)} {a b : ℝ × ℝ}
    (hs : TenorSorted pairs) (ha : pairs.head? = some a)
    (hb : pairs.getLast? = some b) (hlen : 2 ≤ pairs.length) :
    a.1 < b.1 := by
  match pairs, hs with
  | [], _ => simp at ha
  | [x], _ => simp at hlen
  | x :: y :: l, hs =>
    simp only [List.head?_cons, Option.some.injEq] at ha
    have hbmem : b ∈ y :: l := by
      have hx : b ∈ (y :: l).getLast? := by
        rw [Option.mem_def, ← hb, List.getLast?_cons_cons]
      obtain ⟨hne, heq⟩ := List.mem_getLast?_eq_getLast hx
      rw [heq]
      exact List.getLast_mem hne
    subst ha
    exact (List.pairwise_cons.mp hs).1 b hbmem

/-- C4: flat clamp at the curve ends. For every strictly-sorted curve
with at least 2 points, a maturity at or below the smallest tenor gets
that tenor's yield unchanged, and a maturity at or above the largest
tenor gets that tenor's yield unchanged. -/
theorem interpolate_clamp (pairs : List (ℝ × ℝ)) (T t0 y0 tn yn : ℝ)
    (hs : TenorSorted pairs) (hlen : 2 ≤ pairs.length)
    (h0 : pairs.head? = some (t0, y0)) (hn : pairs.getLast? = some (tn, yn)) :
    (T ≤ t0 → interpolate pairs T = some y0) ∧
    (tn ≤ T → interpolate pairs T = some yn) := by
  have hlt : t0 < tn := tenorSorted_head_lt_getLast hs h0 hn hlen
  constructor
  · intro hT
    unfold interpolate
    rw [h0, hn]
    simp [hT]
  · intro hT
    unfold interpolate
    rw [h0, hn]
    have : ¬ T ≤ t0 := not_le.mpr (lt_of_lt_of_le hlt hT)
    simp [this, hT]

lemma findBracket_append (l1 : List (ℝ × ℝ)) (t0 y0 t1 y1 : ℝ)
    (l2 : List (ℝ × ℝ)) (T : ℝ)
    (hall : ∀ p ∈ l1, p.1 < T) (ht0 : t0 < T) (hT1 : T ≤ t1) :
    findBracket (l1 ++ (t0, y0) :: (t1, y1) :: l2) T
      = some (y0 + (T - t0) / (t1 - t0) * (y1 - y0)) := by
  induction l1 with
  | nil =>
    simp only [List.nil_append]
    unfold findBracket
    rw [if_pos ⟨le_of_lt ht0, hT1⟩]
  | cons a l1' ih =>
    have hall' : ∀ p ∈ l1', p.1 < T := fun p hp => hall p (List.mem_cons_of_mem a hp)
    obtain ⟨a1, a2⟩ := a
    cases l1' with
    | nil =>
      have hnot : ¬ T ≤ t0 := not_le.mpr ht0
      simp only [List.cons_append, List.nil_append]
      unfold findBracket
      rw [if_neg (by tauto)]
      simpa using ih hall'
    | cons b l1'' =>
      obtain ⟨b1, b2⟩ := b
      have hb : b1 < T := hall (b1, b2) (by simp)
      have hnot : ¬ T ≤ b1 := not_le.mpr hb
      simp only [List.cons_append]
      unfold findBracket
      rw [if_neg (by tauto)]
      simpa using ih hall'

lemma interpolate_head_clamp {pairs : List (ℝ × ℝ)} {t0 y0 T : ℝ}
    (h0 : pairs.head? = some (t0, y0)) (hT : T ≤ t0) :
    interpolate pairs T = some y0 := by
  have hne : pairs ≠ [] := by
    intro h
    rw [h] at h0
    simp at h0
  obtain ⟨⟨qa, qb⟩, hq⟩ : ∃ q, pairs.getLast? = some q :=
    ⟨pairs.getLast hne, List.getLast?_eq_getLast_of_ne_nil hne⟩
  unfold interpolate
  rw [h0, hq]
  simp [hT]

lemma tenorSorted_getLast_cons {l2 : List (ℝ × ℝ)} {t1 y1 qa qb : ℝ}
    (hs : ((t1, y1) :: l2).Pairwise fun p q => p.1 < q.1)
    (hq : ((t1, y1) :: l2).getLast? = some (qa, qb)) :
    t1 ≤ qa := by
  have hmem : (qa, qb) ∈ (t1, y1) :: l2 := by
    have hx : (qa, qb) ∈ ((t1, y1) :: l2).getLast? := Option.mem_def.mpr hq
    obtain ⟨hne, heq⟩ := List.mem_getLast?_eq_getLast hx
    rw [heq]
    exact List.getLast_mem hne
  rcases List.mem_cons.mp hmem with h | h
  · rw [Prod.mk.injEq] at h
    exact le_of_eq h.1.symm
  · exact le_of_lt ((List.pairwise_cons.mp hs).1 _ h)

/-- For a strictly-sorted curve decomposed around an adjacent pair
`(t0,y0), (t1,y1)` with `t0 < T ≤ t1`, neither clamp fires strictly and
the result is the linear-interpolation formula on that bracket. -/
lemma interpolate_interior (l1 l2 : List (ℝ × ℝ)) (t0 y0 t1 y1 T : ℝ)
    (hs : TenorSorted (l1 ++ (t0, y0) :: (t1, y1) :: l2))
    (h0 : t0 < T) (h1 : T ≤ t1) :
    interpolate (l1 ++ (t0, y0) :: (t1, y1) :: l2) T
      = some (y0 + (T - t0) / (t1 - t0) * (y1 - y0)) := by
  obtain ⟨hs1, hs2, hcross⟩ := List.pairwise_append.mp hs
  have hl1 : ∀ p ∈ l1, p.1 < t0 :=
    fun p hp => hcross p hp (t0, y0) (List.mem_cons_self _ _)
  have hallT : ∀ p ∈ l1, p.1 < T := fun p hp => lt_trans (hl1 p hp) h0
  -- last element of L lies in (t1,y1)::l2, hence its tenor is ≥ t1
  have hq2 : ((t1, y1) :: l2).getLast?
      = some (((t1, y1) :: l2).getLast (by simp)) :=
    List.getLast?_eq_getLast_of_ne_nil (by simp)
  obtain ⟨⟨qa, qb⟩, hq'⟩ : ∃ q, ((t1, y1) :: l2).getLast? = some q :=
    ⟨_, hq2⟩
  have hq : (l1 ++ (t0, y0) :: (t1, y1) :: l2).getLast? = some (qa, qb) := by
    rw [List.getLast?_append, List.getLast?_cons_cons, hq']
    rfl
  have hqmem : (qa, qb) ∈ (t1, y1) :: l2 := by
    have hx : (qa, qb) ∈ ((t1, y1) :: l2).getLast? := Option.mem_def.mpr hq'
    obtain ⟨hne, heq⟩ := List.mem_getLast?_eq_getLast hx
    rw [heq]
    exact List.getLast_mem hne
  have ht1qa : t1 ≤ qa := tenorSorted_getLast_cons (List.pairwise_cons.mp hs2).2 hq'
  have hTqa : T ≤ qa := le_trans h1 ht1qa
  -- head of L: either the head of l1 or (t0, y0); its tenor is < T
  obtain ⟨⟨ha1, ha2⟩, hhead, hheadT⟩ :
      ∃ p, (l1 ++ (t0, y0) :: (t1, y1) :: l2).head? = some p ∧ p.1 < T := by
    cases l1 with
    | nil => exact ⟨(t0, y0), by simp, h0⟩
    | cons c l1' =>
      exact ⟨c, by simp, hallT c (List.mem_cons_self _ _)⟩
  by_cases hclamp : qa ≤ T
  · -- only possible when T = t1 = qa and the last element is (t1, y1) itself
    have hTt1 : T = t1 := le_antisymm h1 (le_trans ht1qa hclamp)
    have hqt1 : qa = t1 := (le_antisymm hclamp hTqa).trans hTt1
    have hqy1 : qb = y1 := by
      rcases List.mem_cons.mp hqmem with h | h
      · exact (Prod.mk.injEq .. ▸ h).2
      · exfalso
        have hlt := (List.pairwise_cons.mp (List.pairwise_cons.mp hs2).2).1 _ h
        rw [hqt1] at hlt
        exact lt_irrefl t1 hlt
    have hform : y0 + (T - t0) / (t1 - t0) * (y1 - y0) = y1 := by
      rw [hTt1, div_self (sub_ne_zero.mpr (ne_of_gt (hTt1 ▸ h0)))]
      ring
    rw [hform]
    unfold interpolate
    rw [hhead, hq]
    simp only [not_le.mpr hheadT, if_false, hclamp, if_true, hqy1]
  · -- no clamp: the bracket scan finds (t0,y0),(t1,y1) first
    unfold interpolate
    rw [hhead, hq]
    simp only [not_le.mpr hheadT, if_false, hclamp]
    exact findBracket_append l1 t0 y0 t1 y1 l2 T hallT h0 h1

/-- C5: for every strictly-sorted curve and `T` strictly between the
adjacent tenor points `(t0,y0)` and `(t1,y1)`, the ascending first-bracket
scan returns the linear interpolation
`y0 + ((T - t0)/(t1 - t0))·(y1 - y0)`. -/
theorem interpolate_linear_between (l1 l2 : List (ℝ × ℝ)) (t0 y0 t1 y1 T : ℝ)
    (hs : TenorSorted (l1 ++ (t0, y0) :: (t1, y1) :: l2))
    (h0 : t0 < T) (h1 : T < t1) :
    interpolate (l1 ++ (t0, y0) :: (t1, y1) :: l2) T
      = some (y0 + (T - t0) / (t1 - t0) * (y1 - y0)) :=
  interpolate_interior l1 l2 t0 y0 t1 y1 T hs h0 (le_of_lt h1)

/-- Witness for C5 on the curve `[(1, 0.04), (2, 0.06)]` at `T = 1.5`. -/
theorem interpolate_linear_between_witness :
    interpolate [(1, 0.04), (2, 0.06)] 1.5
      = some (0.04 + (1.5 - 1) / (2 - 1) * (0.06 - 0.04)) := by
  have h := interpolate_linear_between ([]) ([]) 1 0.04 2 0.06 1.5
    (by unfold TenorSorted; simp) (by norm_num) (by norm_num)
  simpa using h

/-- C6: for every strictly-sorted curve with at least 2 points and a
requested maturity equal to one of the curve's tenors, interpolation
returns exactly the yield associated with that tenor. -/
theorem interpolate_exact_tenor (pairs : List (ℝ × ℝ)) (t y : ℝ)
    (hs : TenorSorted pairs) (hlen : 2 ≤ pairs.length)
    (hmem : (t, y) ∈ pairs) :
    interpolate pairs t = some y := by
  obtain ⟨l1, l2, hdec⟩ := List.append_of_mem hmem
  subst hdec
  cases l1 with
  | nil =>
    exact interpolate_head_clamp (by simp) (le_refl t)
  | cons a l1' =>
    obtain ⟨l1'', ⟨tp, yp⟩, hcat⟩ :
        ∃ l1'' p, a :: l1' = l1'' ++ [p] := by
      rcases List.eq_nil_or_concat (a :: l1') with h | ⟨l1'', p, hp⟩
      · simp at h
      · exact ⟨l1'', p, by rw [hp, List.concat_eq_append]⟩
    rw [hcat, List.append_assoc, List.singleton_append] at hs hmem ⊢
    have htp : tp < t := by
      obtain ⟨hs1, hs2, hcross⟩ := List.pairwise_append.mp hs
      exact (List.pairwise_cons.mp hs2).1 (t, y) (List.mem_cons_self _ _)
    have h := interpolate_interior l1'' l2 tp yp t y t hs htp (le_refl t)
    rw [h, div_self (sub_ne_zero.mpr (ne_of_gt htp))]
    norm_num

/-- Witness for C6 on the curve `[(1, 0.04), (2, 0.06)]` at the exact
tenor `T = 2`. -/
theorem interpolate_exact_tenor_witness :
    interpolate [(1, 0.04), (2, 0.06)] 2 = some 0.06 :=
  interpolate_exact_tenor [(1, 0.04), (2, 0.06)] 2 0.06
    (by unfold TenorSorted; simp) (by decide) (by simp)

/-! `data.py`: `risk_free_rate` as a whole, on the tenor/yield points
extracted from the Treasury row (network fetch and HTML parsing are the
external data provider). -/

/-- `risk_free_rate` from `data.py`, as a function of the extracted
`(tenor, yield)` points: rejects `T_years <= 0` first, then requires at
least 2 points, sorts by tenor, clamps/interpolates, and finally converts
to a continuous rate when requested. The `none` branch of the
interpolation is Python's unbound `yT` (unreachable on sorted data). -/
noncomputable def risk_free_rate (T_years : ℝ) (pairs : List (ℝ × ℝ))
    (continuous : Bool) (comp_assumption : String) : Except String ℝ :=
  if T_years ≤ 0 then .error "T_years must be > 0."
  else if pairs.length < 2 then
    .error "Not enough tenor points found to interpolate."
  else
    match interpolate (pairs.mergeSort fun a b => decide (a.1 ≤ b.1)) T_years with
    | some yT => if continuous then toContinuousRate yT comp_assumption else .ok yT
    | none => .error "yT not assigned"

/-! `data.py`: option selection. -/

/-- Python `min(l, key=key)` on the non-empty list `x :: l`: the first
element attaining the minimal key. -/
def minByNe {α β : Type} [LinearOrder β] (key : α → β) (x : α) :
    List α → α
  | [] => x
  | y :: ys =>
    let m := minByNe key y ys
    if key x ≤ key m then x else m

lemma minByNe_spec {α β : Type} [LinearOrder β] (key : α → β) (x : α)
    (l : List α) :
    minByNe key x l ∈ x :: l ∧ ∀ j ∈ x :: l, key (minByNe key x l) ≤ key j := by
  induction l generalizing x with
  | nil =>
    simp [minByNe]
  | cons y ys ih =>
    obtain ⟨ihm, ihle⟩ := ih y
    have hdef : minByNe key x (y :: ys)
        = if key x ≤ key (minByNe key y ys) then x else minByNe key y ys := rfl
    rw [hdef]
    by_cases hxy : key x ≤ key (minByNe key y ys)
    · rw [if_pos hxy]
      refine ⟨List.mem_cons_self _ _, ?_⟩
      intro j hj
      rcases List.mem_cons.mp hj with h | h
      · rw [h]
      · exact le_trans hxy (ihle j h)
    · rw [if_neg hxy]
      refine ⟨List.mem_cons_of_mem x ihm, ?_⟩
      intro j hj
      rcases List.mem_cons.mp hj with h | h
      · rw [h]
        exact le_of_not_le hxy
      · exact ihle j h

/-- Python 3 `round` (round half to even), used via
`int(round(T_years * 365))` in `choose_expiration_from_T`. -/
noncomputable def pyRound (x : ℝ) : ℤ :=
  if Int.fract x = 1 / 2 then (if 2 ∣ ⌊x⌋ then ⌊x⌋ else ⌊x⌋ + 1)
  else round x

/-- `choose_expiration_from_T` from `data.py`, as a function of today's
date and the listed expirations (dates are modelled as day numbers):
rejects `T_years <= 0`, forms `target = today + round(T_years * 365)`
days, fails when no expirations exist, otherwise returns the expiration
minimizing `abs((d - target).days)` via Python `min`. -/
noncomputable def choose_expiration_from_T (today : ℤ) (expirations : List ℤ)
    (T_years : ℝ) : Except String ℤ :=
  if T_years ≤ 0 then .error "T_years must be > 0"
  else
    let target := today + pyRound (T_years * 365)
    match expirations with
    | [] => .error "No option expirations found"
    | e :: es => .ok (minByNe (fun d => |d - target|) e es)

/-- C9: for every positive target horizon, the chosen expiration is the
one minimizing absolute day-distance to
`today + round(target_T_years * 365)` days, and an empty expiration set
fails with the no-expirations error. -/
theorem choose_expiration_correct (today : ℤ) (expirations : List ℤ)
    (T_years : ℝ) (hT : 0 < T_years) :
    (expirations = [] →
      choose_expiration_from_T today expirations T_years
        = .error "No option expirations found") ∧
    (expirations ≠ [] →
      ∃ e, choose_expiration_from_T today expirations T_years = .ok e ∧
        e ∈ expirations ∧
        ∀ d ∈ expirations,
          |e - (today + pyRound (T_years * 365))|
            ≤ |d - (today + pyRound (T_years * 365))|) := by
  have hT' : ¬ T_years ≤ 0 := not_le.mpr hT
  constructor
  · intro he
    subst he
    unfold choose_expiration_from_T
    rw [if_neg hT']
  · intro hne
    obtain ⟨e, es, rfl⟩ : ∃ e es, expirations = e :: es :=
      List.exists_cons_of_ne_nil hne
    obtain ⟨hmem, hle⟩ :=
      minByNe_spec (fun d => |d - (today + pyRound (T_years * 365))|) e es
    refine ⟨minByNe (fun d => |d - (today + pyRound (T_years * 365))|) e es,
      ?_, hmem, hle⟩
    unfold choose_expiration_from_T
    rw [if_neg hT']

/-- Witness for C9: today `0`, expirations `[100, 200]`, `T = 0.5`
(target day `183`, since `0.5 * 365 = 182.5` rounds half-to-even to
`182`): the minimizer property holds of the returned expiration. -/
theorem choose_expiration_correct_witness :
    ([100, 200] : List ℤ) ≠ [] ∧
    ∃ e, choose_expiration_from_T 0 ([100, 200]) 0.5 = .ok e ∧
      e ∈ ([100, 200] : List ℤ) ∧
      ∀ d ∈ ([100, 200] : List ℤ),
        |e - (0 + pyRound (0.5 * 365))| ≤ |d - (0 + pyRound (0.5 * 365))| :=
  ⟨by simp,
    (choose_expiration_correct 0 ([100, 200]) 0.5 (by norm_num)).2 (by simp)⟩

/-- C10: for every `T_years <= 0`, both `choose_expiration_from_T` and
`risk_free_rate` fail immediately with the parameter error
`T_years must be > 0`, whatever market data (curve points, expirations)
they are given. -/
theorem t_nonpositive_rejected (T_years : ℝ) (hT : T_years ≤ 0) :
    (∀ pairs continuous comp_assumption,
      risk_free_rate T_years pairs continuous comp_assumption
        = .error "T_years must be > 0.") ∧
    (∀ today expirations,
      choose_expiration_from_T today expirations T_years
        = .error "T_years must be > 0") := by
  constructor
  · intro pairs continuous comp_assumption
    unfold risk_free_rate
    rw [if_pos hT]
  · intro today expirations
    unfold choose_expiration_from_T
    rw [if_pos hT]

/-- The three recognized values of the `strike_rule` literal in
`strike_from_expiration`. -/
inductive StrikeRule
  | ATM
  | OTM_PCT
  | ITM_PCT

/-- `strike_from_expiration` from `data.py`, as a function of the sorted
strike ladder of the chain and the spot price `S` (both fetched by the
external provider; `sorted(set(...))` makes the ladder strictly
increasing). `ATM` takes the strike closest to spot via Python `min`;
the percentage rules require `pct > 0` and pick
`candidates[0] if candidates else strikes[-1]` (OTM) or
`candidates[-1] if candidates else strikes[0]` (ITM). -/
noncomputable def strike_from_expiration (strikes : List ℝ) (S : ℝ)
    (strike_rule : StrikeRule) (pct : ℝ) : Except String ℝ :=
  match strikes with
  | [] => .error "No strikes found"
  | k0 :: ks =>
    match strike_rule with
    | .ATM => .ok (minByNe (fun k => |k - S|) k0 ks)
    | .OTM_PCT =>
      if pct ≤ 0 then .error "pct must be > 0 for OTM_PCT / ITM_PCT"
      else
        match (k0 :: ks).filter (fun k => decide (S * (1 + pct) ≤ k)) with
        | [] => .ok ((k0 :: ks).getLast (by simp))
        | c :: _ => .ok c
    | .ITM_PCT =>
      if pct ≤ 0 then .error "pct must be > 0 for OTM_PCT / ITM_PCT"
      else
        match ((k0 :: ks).filter fun k => decide (k ≤ S * (1 - pct))).getLast? with
        | some c => .ok c
        | none => .ok k0

lemma sorted_cons_min {l : List ℝ} {c : ℝ}
    (hs : (c :: l).Pairwise (· < ·)) : ∀ j ∈ c :: l, c ≤ j := by
  intro j hj
  rcases List.mem_cons.mp hj with h | h
  · exact le_of_eq h.symm
  · exact le_of_lt ((List.pairwise_cons.mp hs).1 j h)

lemma sorted_getLast_max {l : List ℝ} {c : ℝ}
    (hs : l.Pairwise (· < ·)) (hc : l.getLast? = some c) :
    c ∈ l ∧ ∀ j ∈ l, j ≤ c := by
  induction l with
  | nil => simp at hc
  | cons x xs ih =>
    cases hxs : xs with
    | nil =>
      subst hxs
      simp only [List.getLast?_singleton, Option.some.injEq] at hc
      subst hc
      simp
    | cons y ys =>
      subst hxs
      rw [List.getLast?_cons_cons] at hc
      obtain ⟨hmem, hmax⟩ := ih (List.pairwise_cons.mp hs).2 hc
      refine ⟨List.mem_cons_of_mem x hmem, ?_⟩
      intro j hj
      rcases List.mem_cons.mp hj with h | h
      · rw [h]
        exact le_of_lt ((List.pairwise_cons.mp hs).1 c hmem)
      · exact hmax j h

lemma sorted_filter_sorted {l : List ℝ} (p : ℝ → Bool)
    (hs : l.Pairwise (· < ·)) : (l.filter p).Pairwise (· < ·) :=
  hs.sublist (List.filter_sublist l)

/-- C8: strike selection under the percentage rules, on every non-empty
strictly-sorted strike ladder. With `pct ≤ 0` both rules fail with the
parameter error. With `pct > 0`: `OTM_PCT` returns the smallest strike
`≥ S·(1+pct)`, clamping to the largest strike when no strike reaches the
target; `ITM_PCT` returns the largest strike `≤ S·(1-pct)`, clamping to
the smallest strike when no strike is below the target. -/
theorem strike_pct_rules (strikes : List ℝ) (S pct : ℝ)
    (hne : strikes ≠ []) (hs : strikes.Pairwise (· < ·)) :
    (pct ≤ 0 →
      strike_from_expiration strikes S .OTM_PCT pct
          = .error "pct must be > 0 for OTM_PCT / ITM_PCT" ∧
      strike_from_expiration strikes S .ITM_PCT pct
          = .error "pct must be > 0 for OTM_PCT / ITM_PCT") ∧
    (0 < pct →
      (∃ k, strike_from_expiration strikes S .OTM_PCT pct = .ok k ∧
        ((∃ j ∈ strikes, S * (1 + pct) ≤ j) →
          k ∈ strikes ∧ S * (1 + pct) ≤ k ∧
            ∀ j ∈ strikes, S * (1 + pct) ≤ j → k ≤ j) ∧
        ((∀ j ∈ strikes, j < S * (1 + pct)) →
          k ∈ strikes ∧ ∀ j ∈ strikes, j ≤ k)) ∧
      (∃ k, strike_from_expiration strikes S .ITM_PCT pct = .ok k ∧
        ((∃ j ∈ strikes, j ≤ S * (1 - pct)) →
          k ∈ strikes ∧ k ≤ S * (1 - pct) ∧
            ∀ j ∈ strikes, j ≤ S * (1 - pct) → j ≤ k) ∧
        ((∀ j ∈ strikes, S * (1 - pct) < j) →
          k ∈ strikes ∧ ∀ j ∈ strikes, k ≤ j))) := by
  obtain ⟨k0, ks, rfl⟩ : ∃ k0 ks, strikes = k0 :: ks :=
    List.exists_cons_of_ne_nil hne
  constructor
  · intro hpct
    constructor
    · unfold strike_from_expiration
      dsimp only
      rw [if_pos hpct]
    · unfold strike_from_expiration
      dsimp only
      rw [if_pos hpct]
  · intro hpct
    have hpct' : ¬ pct ≤ 0 := not_le.mpr hpct
    constructor
    · -- OTM_PCT
      cases hfil : (k0 :: ks).filter (fun k => decide (S * (1 + pct) ≤ k)) with
      | nil =>
        refine ⟨(k0 :: ks).getLast (by simp), ?_, ?_, ?_⟩
        · unfold strike_from_expiration
          dsimp only
          rw [if_neg hpct', hfil]
        · rintro ⟨j, hj, hjt⟩
          exfalso
          have : j ∈ (k0 :: ks).filter (fun k => decide (S * (1 + pct) ≤ k)) := by
            rw [List.mem_filter]
            exact ⟨hj, by simpa using hjt⟩
          rw [hfil] at this
          simp at this
        · intro _
          have hlast := List.getLast?_eq_getLast_of_ne_nil
            (l := k0 :: ks) (by simp)
          exact sorted_getLast_max hs hlast
      | cons c rest =>
        refine ⟨c, ?_, ?_, ?_⟩
        · unfold strike_from_expiration
          dsimp only
          rw [if_neg hpct', hfil]
        · intro _
          have hcmem : c ∈ (k0 :: ks).filter (fun k => decide (S * (1 + pct) ≤ k)) := by
            rw [hfil]
            exact List.mem_cons_self _ _
          rw [List.mem_filter] at hcmem
          refine ⟨hcmem.1, by simpa using hcmem.2, ?_⟩
          intro j hj hjt
          have hjmem : j ∈ (k0 :: ks).filter (fun k => decide (S * (1 + pct) ≤ k)) := by
            rw [List.mem_filter]
            exact ⟨hj, by simpa using hjt⟩
          rw [hfil] at hjmem
          have hsorted := sorted_filter_sorted
            (fun k => decide (S * (1 + pct) ≤ k)) hs
          rw [hfil] at hsorted
          exact sorted_cons_min hsorted j hjmem
        · intro hall
          exfalso
          have hcmem : c ∈ (k0 :: ks).filter (fun k => decide (S * (1 + pct) ≤ k)) := by
            rw [hfil]
            exact List.mem_cons_self _ _
          rw [List.mem_filter] at hcmem
          have := hall c hcmem.1
          have h2 : S * (1 + pct) ≤ c := by simpa using hcmem.2
          linarith
    · -- ITM_PCT
      cases hfil : ((k0 :: ks).filter fun k => decide (k ≤ S * (1 - pct))).getLast? with
      | none =>
        refine ⟨k0, ?_, ?_, ?_⟩
        · unfold strike_from_expiration
          dsimp only
          rw [if_neg hpct', hfil]
        · rintro ⟨j, hj, hjt⟩
          exfalso
          have hjmem : j ∈ (k0 :: ks).filter (fun k => decide (k ≤ S * (1 - pct))) := by
            rw [List.mem_filter]
            exact ⟨hj, by simpa using hjt⟩
          have hne2 : (k0 :: ks).filter (fun k => decide (k ≤ S * (1 - pct))) ≠ [] :=
            List.ne_nil_of_mem hjmem
          rw [List.getLast?_eq_getLast_of_ne_nil hne2] at hfil
          simp at hfil
          rcases List.mem_cons.mp hj with h | h
          · subst h
            linarith [hfil.2]
          · linarith [hfil.1 j h]
        · intro _
          exact ⟨List.mem_cons_self _ _, sorted_cons_min hs⟩
      | some c =>
        refine ⟨c, ?_, ?_, ?_⟩
        · unfold strike_from_expiration
          dsimp only
          rw [if_neg hpct', hfil]
        · intro _
          have hsorted := sorted_filter_sorted
            (fun k => decide (k ≤ S * (1 - pct))) hs
          obtain ⟨hcmem, hcmax⟩ := sorted_getLast_max hsorted hfil
          rw [List.mem_filter] at hcmem
          refine ⟨hcmem.1, by simpa using hcmem.2, ?_⟩
          intro j hj hjt
          refine hcmax j ?_
          rw [List.mem_filter]
          exact ⟨hj, by simpa using hjt⟩
        · intro hall
          exfalso
          have hsorted := sorted_filter_sorted
            (fun k => decide (k ≤ S * (1 - pct))) hs
          obtain ⟨hcmem, _⟩ := sorted_getLast_max hsorted hfil
          rw [List.mem_filter] at hcmem
          have := hall c hcmem.1
          have h2 : c ≤ S * (1 - pct) := by simpa using hcmem.2
          linarith

/-- Witness for C8 on the ladder `[90, 95, 100, 105, 110]` with spot
`100`: `pct = 0.05` under OTM (target `105`) and ITM (target `95`), and
the `pct = 0` failure. -/
theorem strike_pct_rules_witness :
    (strike_from_expiration ([90, 95, 100, 105, 110]) 100 .OTM_PCT 0
        = .error "pct must be > 0 for OTM_PCT / ITM_PCT") ∧
    (∃ k, strike_from_expiration ([90, 95, 100, 105, 110]) 100 .OTM_PCT 0.05
        = .ok k ∧ k ∈ ([90, 95, 100, 105, 110] : List ℝ) ∧
        100 * (1 + 0.05) ≤ k) := by
  have h0 := strike_pct_rules ([90, 95, 100, 105, 110]) 100 0
    (by simp) (by norm_num)
  have h5 := strike_pct_rules ([90, 95, 100, 105, 110]) 100 0.05
    (by simp) (by norm_num)
  refine ⟨(h0.1 le_rfl).1, ?_⟩
  obtain ⟨⟨k, hk, hprop, _⟩, _⟩ := h5.2 (by norm_num)
  have hex : ∃ j ∈ ([90, 95, 100, 105, 110] : List ℝ), 100 * (1 + 0.05) ≤ j :=
    ⟨105, by norm_num, by norm_num⟩
  obtain ⟨hmem, hge, _⟩ := hprop hex
  exact ⟨k, hk, hmem, hge⟩

/-- Witness for C10 at `T_years = 0` with a concrete curve and a concrete
expiration list. -/
theorem t_nonpositive_rejected_witness :
    risk_free_rate 0 ([(1, 0.05), (2, 0.06)]) true "annual"
        = .error "T_years must be > 0." ∧
    choose_expiration_from_T 5 ([100]) 0 = .error "T_years must be > 0" :=
  ⟨(t_nonpositive_rejected 0 le_rfl).1 ([(1, 0.05), (2, 0.06)]) true "annual",
    (t_nonpositive_rejected 0 le_rfl).2 5 ([100])⟩

/-- Witness for C4 on the curve `[(1, 0.04), (2, 0.05)]` at `T = 0.5`
and `T = 3`. -/
theorem interpolate_clamp_witness :
    interpolate [(1, 0.04), (2, 0.05)] 0.5 = some 0.04 ∧
    interpolate [(1, 0.04), (2, 0.05)] 3 = some 0.05 := by
  have h05 := interpolate_clamp [(1, 0.04), (2, 0.05)] 0.5 1 0.04 2 0.05
    (by unfold TenorSorted; simp) (by simp) (by simp) (by simp)
  have h3 := interpolate_clamp [(1, 0.04), (2, 0.05)] 3 1 0.04 2 0.05
    (by unfold TenorSorted; simp) (by simp) (by simp) (by simp)
  exact ⟨h05.1 (by norm_num), h3.2 (by norm_num)⟩
